import Mathlib

/-!
Verification development for the arxiv-mcp-server repository.

The TypeScript source is shallowly embedded: strings are `List Char`
(inputs of interest are ASCII), JavaScript objects used as string-keyed
maps are association lists with JavaScript property-assignment semantics
(overwrite in place, otherwise append), and the filesystem / network
effects of the storage layer are made explicit as state passing plus an
effect counter.  Fallible operations return `Except`.
-/

/-- The ASCII part of JavaScript's regex class matched by a backslash-s
atom: space, tab, newline, vertical tab, form feed, carriage return.
(The Unicode space characters also in that class play no role for the
inputs considered here.) -/
def isJsWs (c : Char) : Bool :=
  c = ' ' || c = '\t' || c = '\n' || c = '\x0b' || c = '\x0c' || c = '\r'

/-- JavaScript `String.prototype.trim`, restricted to ASCII whitespace:
drop whitespace from both ends. -/
def jsTrim (s : List Char) : List Char :=
  ((s.dropWhile isJsWs).reverse.dropWhile isJsWs).reverse

/-- `text.split('\n')` from `extractSections` (src/utils/pdfReader.ts line 41). -/
def splitLines : List Char → List (List Char)
  | [] => [[]]
  | c :: s =>
    if c = '\n' then [] :: splitLines s
    else
      match splitLines s with
      | [] => [[c]]
      | l :: ls => (c :: l) :: ls

/-- `arr.join('\n')` used when flushing accumulated section lines. -/
def joinNl : List (List Char) → List Char
  | [] => []
  | [l] => l
  | l :: l' :: ls => l ++ '\n' :: joinNl (l' :: ls)

/-- Case-insensitive literal prefix strip: `pat` is an already-lowercased
pattern fragment; returns the remainder of `s` if `pat` matches a prefix of
`s` after lowercasing `s`'s characters. -/
def ciStrip : List Char → List Char → Option (List Char)
  | [], s => some s
  | _ :: _, [] => none
  | c :: cs, d :: s => if c = d.toLower then ciStrip cs s else none

/-- Backtracking match of a regex tail of shape backslash-s-star followed by
the literal fragment `post` (case-insensitive): either `post` matches here,
or one whitespace character is consumed and we continue.  This reproduces
the greedy-with-backtracking semantics of the source regexes, whose only
non-literal atom is a single backslash-s-star. -/
def wsStarThen (post : List Char) : List Char → Bool
  | [] => (ciStrip post []).isSome
  | c :: s => (ciStrip post (c :: s)).isSome || (isJsWs c && wsStarThen post s)

/-- A heading regex from the `sectionPatterns` table of
`PdfReader.extractSections` (src/utils/pdfReader.ts lines 31-39).  Every
pattern there is a literal fragment, then backslash-s-star, then another
literal fragment, matched case-insensitively anywhere in the line. -/
structure HeadPat where
  pre : List Char
  post : List Char
deriving DecidableEq

/-- The pattern matches at the start of `s`. -/
def matchPatAt (p : HeadPat) (s : List Char) : Bool :=
  match ciStrip p.pre s with
  | none => false
  | some rest => wsStarThen p.post rest

/-- JavaScript `pattern.test(line)`: the pattern matches at some position
of the line. -/
def patTest (p : HeadPat) : List Char → Bool
  | [] => matchPatAt p []
  | c :: s => matchPatAt p (c :: s) || patTest p s

/-- Heading pattern `word` then backslash-s-star then a literal newline,
e.g. the source's `abstract` pattern. -/
def hpNl (w : String) : HeadPat := ⟨w.data, ['\n']⟩

/-- The source's second `introduction` pattern: literal newline, "1.",
backslash-s-star, then "introduction". -/
def hpNumIntro : HeadPat := ⟨['\n', '1', '.'], ("introduction").data⟩

/-- The `sectionPatterns` table of `PdfReader.extractSections`, in source
order (src/utils/pdfReader.ts lines 31-39). -/
def sectionPatterns : List (String × List HeadPat) :=
  [ ("abstract", [hpNl "abstract", hpNl "summary"]),
    ("introduction", [hpNl "introduction", hpNumIntro]),
    ("methodology", [hpNl "methodology", hpNl "methods", hpNl "approach"]),
    ("results", [hpNl "results", hpNl "findings", hpNl "experiments"]),
    ("discussion", [hpNl "discussion", hpNl "analysis"]),
    ("conclusion", [hpNl "conclusion", hpNl "conclusions", hpNl "summary"]),
    ("references", [hpNl "references", hpNl "bibliography"]) ]

/-- The section map produced by `extractSections`: a string-keyed
JavaScript object, embedded as an insertion-ordered association list. -/
abbrev SMap := List (String × List Char)

/-- JavaScript property read `obj[k]`. -/
def smapGet : SMap → String → Option (List Char)
  | [], _ => none
  | (k', v) :: rest, k => if k' = k then some v else smapGet rest k

/-- JavaScript property assignment `obj[k] = v`: overwrite in place if the
key exists, otherwise append. -/
def smapSet : SMap → String → List Char → SMap
  | [], k, v => [(k, v)]
  | (k', v') :: rest, k, v =>
    if k' = k then (k', v) :: rest else (k', v') :: smapSet rest k v

/-- The inner double loop of `extractSections` over `sectionPatterns`
with its `break`s: the first section name one of whose patterns tests
true against the (lowercased) line, if any. -/
def findHeading (line : List Char) : Option String :=
  (sectionPatterns.find? (fun np => np.2.any (fun p => patTest p (line.map Char.toLower)))).map
    (fun np => np.1)

/-- Flush `sections[currentSection] = currentContent.join('\n').trim()`,
guarded exactly as in the source: only when a current section exists and
the accumulator is a non-empty array. -/
def flushSection (cur : Option String) (content : List (List Char)) (secs : SMap) : SMap :=
  match cur with
  | none => secs
  | some name => if content.isEmpty then secs else smapSet secs name (jsTrim (joinNl content))

/-- The main line scan of `extractSections` (src/utils/pdfReader.ts
lines 45-76), including the final flush. -/
def extractLoop : List (List Char) → Option String → List (List Char) → SMap → SMap
  | [], cur, content, secs => flushSection cur content secs
  | line :: rest, cur, content, secs =>
    match findHeading line with
    | some name => extractLoop rest (some name) [] (flushSection cur content secs)
    | none =>
      match cur with
      | some _ => extractLoop rest cur (content ++ [line]) secs
      | none => extractLoop rest cur content secs

/-- The lookahead of the fallback abstract regex of `extractSections`
(src/utils/pdfReader.ts line 80): newline-whitespace-newline, or
"\nintroduction", or "\n1.", or "keywords" (case-insensitively). -/
def fallbackLookahead (s : List Char) : Bool :=
  (match s with
   | c :: rest => c = '\n' && wsStarThen ['\n'] rest
   | [] => false)
  || (ciStrip ('\n' :: ("introduction").data) s).isSome
  || (ciStrip ['\n', '1', '.'] s).isSome
  || (ciStrip ("keywords").data s).isSome

/-- The lazy dot-plus group of the fallback regex: smallest k at least 1
such that the lookahead holds after k characters (the s flag lets dot
match newlines, so any character may be consumed). -/
def findLazyEnd : List Char → Option Nat
  | [] => none
  | _ :: s =>
    if fallbackLookahead s then some 1
    else (findLazyEnd s).map (fun k => k + 1)

/-- Is a character in the class colon-or-whitespace of the fallback regex. -/
def isColonWs (c : Char) : Bool := c = ':' || isJsWs c

/-- Greedy colon-or-whitespace-star followed by the lazy group, with
backtracking: prefer consuming a colon/whitespace character; if the rest
of the regex fails after that, retry matching the group here. -/
def tryColonWs (r : List Char) : Option (List Char) :=
  match r with
  | [] => none
  | c :: r' =>
    if isColonWs c then
      match tryColonWs r' with
      | some g => some g
      | none => (findLazyEnd (c :: r')).map (fun k => (c :: r').take k)
    else (findLazyEnd (c :: r')).map (fun k => (c :: r').take k)

/-- The fallback regex match of `extractSections`: leftmost position where
"abstract" matches case-insensitively and the rest of the regex succeeds;
returns the captured group. -/
def abstractFallback : List Char → Option (List Char)
  | [] => none
  | c :: s =>
    match ciStrip ("abstract").data (c :: s) with
    | some rest =>
      (match tryColonWs rest with
       | some g => some g
       | none => abstractFallback s)
    | none => abstractFallback s

/-- JavaScript falsiness of `sections.abstract`: the property is absent or
the empty string. -/
def abstractFalsy (secs : SMap) : Bool :=
  match smapGet secs "abstract" with
  | none => true
  | some v => v.isEmpty

/-- `PdfReader.extractSections` (src/utils/pdfReader.ts lines 27-87):
split the text into lines, run the heading scan, then, if no (truthy)
abstract was produced, attempt the fallback regex over the whole text. -/
def extractSections (text : List Char) : SMap :=
  let secs := extractLoop (splitLines text) none [] []
  if abstractFalsy secs then
    match abstractFallback text with
    | some g => smapSet secs "abstract" (jsTrim g)
    | none => secs
  else secs

/-! ## Search engine: `PdfReader.searchInPaper` -/

/-- One paper's extracted content (`PaperContent` in src/types): the
search only consults `sections`. -/
structure PaperContent where
  id : String
  title : String
  sections : SMap
  fullText : List Char
deriving DecidableEq

/-- The JavaScript global-regex exec loop
`while ((match = searchRegex.exec(sectionContent)) !== null)`
(src/utils/pdfReader.ts lines 105-117), modelled as a fueled loop over the
regex's `lastIndex`.  `find li` models `exec` with `lastIndex = li`,
returning the match's index and length.  The Boolean result is `true` when
the loop exited because `exec` returned null; a `false` means the fuel ran
out, which corresponds to a non-terminating loop in the source (the loop
advances only through `lastIndex`). -/
def scanLoop (find : Nat → Option (Nat × Nat)) : Nat → Nat → List (Nat × Nat) × Bool
  | 0, _ => ([], false)
  | fuel + 1, li =>
    match find li with
    | none => ([], true)
    | some (i, l) =>
      let r := scanLoop find fuel (i + l)
      ((i, l) :: r.1, r.2)

/-- Literal prefix test. -/
def litPrefix : List Char → List Char → Bool
  | [], _ => true
  | _ :: _, [] => false
  | c :: cs, d :: s => c = d && litPrefix cs s

/-- Search for the first occurrence of `term` in `s`, reporting the index
offset by `i`. -/
def litFindAux (term : List Char) : List Char → Nat → Option (Nat × Nat)
  | s, i =>
    if litPrefix term s then some (i, term.length)
    else
      match s with
      | [] => none
      | _ :: s' => litFindAux term s' (i + 1)

/-- `exec` of the compiled search regex for a LITERAL search term (no
regex metacharacters), at `lastIndex = li`: the first occurrence of the
term at or after `li`.  The source compiles the raw search term as a
regex pattern; this embedding covers terms in which every character
matches itself literally, which includes all terms in the specification's
examples. -/
def literalFind (term body : List Char) (li : Nat) : Option (Nat × Nat) :=
  if li ≤ body.length then litFindAux term (body.drop li) li else none

/-- Run the exec loop to completion over a section body, with fuel
`body.length + 1` (which theorem C9 shows is enough whenever the pattern
cannot match the empty string). -/
def execAll (term body : List Char) : List (Nat × Nat) × Bool :=
  scanLoop (literalFind term body) (body.length + 1) 0

/-- The matches collected for one section (src/utils/pdfReader.ts lines
105-117): case handling via lowercasing when `caseSensitive` is false, and
for each match a context window from `max 0 (index - 50)` to
`min length (index + termLength + 50)` of the original body. -/
def sectionMatches (term body : List Char) (caseSensitive : Bool) : List (List Char × Nat) :=
  let t := if caseSensitive then term else term.map Char.toLower
  let b := if caseSensitive then body else body.map Char.toLower
  (execAll t b).1.map (fun il =>
    let start := il.1 - 50
    let stop := min body.length (il.1 + term.length + 50)
    ((body.drop start).take (stop - start), il.1))

/-- The per-section loop of `searchInPaper` (src/utils/pdfReader.ts lines
102-125): skip falsy (empty) bodies, collect matches, and include a
section in the result only when it has at least one match. -/
def searchSections (term : List Char) (caseSensitive : Bool) : SMap → List (String × List (List Char × Nat))
  | [] => []
  | (n, b) :: rest =>
    if b.isEmpty then searchSections term caseSensitive rest
    else
      let ms := sectionMatches term b caseSensitive
      if ms.isEmpty then searchSections term caseSensitive rest
      else (n, ms) :: searchSections term caseSensitive rest

/-- `PdfReader.searchInPaper` (src/utils/pdfReader.ts lines 89-128), for
literal search terms. -/
def searchInPaper (content : PaperContent) (term : List Char) (caseSensitive : Bool) :
    List (String × List (List Char × Nat)) :=
  searchSections term caseSensitive content.sections

/-- `term` occurs somewhere in `s`. -/
def containsSub (term s : List Char) : Bool :=
  (literalFind term s 0).isSome

/-- The JavaScript regex a-star compiled with the g flag, run against a
fixed body: at any `lastIndex` within bounds it matches at that very
position, with length the number of leading letter-a characters there
(possibly zero — the pattern matches the empty string). -/
def countA : List Char → Nat
  | 'a' :: s => countA s + 1
  | _ => 0

/-- `exec` for the a-star pattern at `lastIndex = li`. -/
def aStarFind (body : List Char) (li : Nat) : Option (Nat × Nat) :=
  if li ≤ body.length then some (li, countA (body.drop li)) else none

/-! ## Storage layer: `StorageManager` and `fileUtils` -/

/-- A catalog entry (`DownloadedPaper` in src/types). -/
structure DownloadedPaper where
  id : String
  title : String
  authors : List String
  downloadDate : String
  filePath : String
  fileSize : Nat
  categories : List String
  abstract : String
deriving DecidableEq

/-- The in-memory catalog: a JavaScript `Map` from arXiv id to entry,
embedded as an insertion-ordered association list with unique keys
maintained by `catGet` / `catSet` / `catRemove`. -/
abbrev Catalog := List (String × DownloadedPaper)

/-- `Map.get`. -/
def catGet : Catalog → String → Option DownloadedPaper
  | [], _ => none
  | (k', v) :: rest, k => if k' = k then some v else catGet rest k

/-- `Map.set`: overwrite in place, otherwise append. -/
def catSet : Catalog → String → DownloadedPaper → Catalog
  | [], k, v => [(k, v)]
  | (k', v') :: rest, k, v =>
    if k' = k then (k', v) :: rest else (k', v') :: catSet rest k v

/-- `Map.delete`. -/
def catRemove : Catalog → String → Catalog
  | [], _ => []
  | (k', v') :: rest, k =>
    if k' = k then rest else (k', v') :: catRemove rest k

/-- The filesystem and metadata file as the storage manager observes
them: the set of artifact paths that exist, and the catalog currently
persisted in METADATA_FILE. -/
structure FsState where
  files : List String
  metadataFile : Catalog
deriving DecidableEq

/-- `StorageManager`'s state: the in-memory `metadata` map plus the
filesystem. -/
structure StorageState where
  metadata : Catalog
  fs : FsState
deriving DecidableEq

/-- Counters for the externally observable effects the claims speak
about: network fetches, artifact file writes, metadata file saves. -/
structure Effects where
  fetches : Nat
  fileWrites : Nat
  metadataSaves : Nat
deriving DecidableEq

def noEffects : Effects := ⟨0, 0, 0⟩

/-- The error taxonomy of src/utils/errors.ts (one constructor per
exported error class; the base class is omitted), plus `plain` for the
built-in JavaScript `Error`. -/
inductive ErrKind where
  | validation
  | network
  | notFound
  | rateLimit
  | storage
  | pdfParse
  | plain
deriving DecidableEq

/-- `fs.access(path)` succeeds exactly when the path exists. -/
def fileExists (fs : FsState) (p : String) : Bool := fs.files.contains p

/-- JavaScript `str.replace(c, r)` with a one-character STRING pattern:
only the first occurrence is replaced. -/
def replaceFirst (c r : Char) : List Char → List Char
  | [] => []
  | d :: s => if d = c then r :: s else d :: replaceFirst c r s

/-- A character of the class the first regex of `sanitizeFilename`
replaces (src/utils/fileUtils.ts line 190). -/
def invalidFileChar (c : Char) : Bool :=
  c = '<' || c = '>' || c = ':' || c = '"' || c = '/' || c = '\\' ||
  c = '|' || c = '?' || c = '*'

/-- Second `replace` of `sanitizeFilename`: each maximal run of
whitespace becomes a single underscore.  The Boolean argument records
whether the previous character was inside a whitespace run. -/
def collapseWsAux : Bool → List Char → List Char
  | _, [] => []
  | inWs, c :: s =>
    if isJsWs c then
      if inWs then collapseWsAux true s else '_' :: collapseWsAux true s
    else c :: collapseWsAux false s

/-- Third `replace` of `sanitizeFilename`: each maximal run of
underscores becomes a single underscore (runs of length one are already
single, so collapsing every run is the same transformation). -/
def collapseUsAux : Bool → List Char → List Char
  | _, [] => []
  | inU, c :: s =>
    if c = '_' then
      if inU then collapseUsAux true s else '_' :: collapseUsAux true s
    else c :: collapseUsAux false s

/-- `sanitizeFilename` (src/utils/fileUtils.ts lines 187-194): replace
invalid filename characters by underscore, collapse whitespace runs to a
single underscore, collapse underscore runs, truncate to 200 characters. -/
def sanitizeFilename (s : List Char) : List Char :=
  (collapseUsAux false
    (collapseWsAux false
      (s.map (fun c => if invalidFileChar c then '_' else c)))).take 200

/-- The artifact filename built by `StorageManager.downloadPaper`
(src/storage/storageManager.ts line 74): the id with its FIRST slash
replaced (a string pattern to `replace` substitutes only the first
occurrence), an underscore, the sanitized title, and the pdf extension. -/
def downloadFilename (arxivId title : String) : List Char :=
  replaceFirst '/' '_' arxivId.data ++ '_' :: (sanitizeFilename title.data ++ (".pdf").data)

/-- The filename the specification describes: EVERY slash of the
identifier replaced by an underscore, then the same sanitized title and
extension.  Stated from the spec's words for comparison with
`downloadFilename`. -/
def specFilename (arxivId title : String) : List Char :=
  arxivId.data.map (fun c => if c = '/' then '_' else c) ++
    '_' :: (sanitizeFilename title.data ++ (".pdf").data)

/-- The storage directory; its concrete value depends on the installed
location (`path.join(dirName, '../../storage')`), which the claims never
consult, so it is modelled as an abstract constant. -/
def STORAGE_DIR : String := "STORAGE_DIR"

/-- `path.join(STORAGE_DIR, filename)`. -/
def joinStorage (filename : List Char) : String :=
  STORAGE_DIR ++ "/" ++ String.mk filename

/-- The caller-supplied descriptive metadata for `downloadPaper`. -/
structure PaperInfo where
  title : String
  authors : List String
  categories : List String
  abstract : String
deriving DecidableEq

/-- Oracle for the effectful steps of a fresh download: whether the HTTP
response is ok (`response.ok`) and its status text, the size `getFileSize`
reports for the written artifact, and the current time
(`new Date().toISOString()`). -/
structure DownloadEnv where
  fetchOk : Bool
  statusText : String
  writtenSize : Nat
  now : String
deriving DecidableEq

/-- The catalog entry the fresh-download path of
`StorageManager.downloadPaper` constructs (src/storage/storageManager.ts
lines 84-93). -/
def freshEntry (env : DownloadEnv) (arxivId : String) (info : PaperInfo) : DownloadedPaper :=
  { id := arxivId, title := info.title, authors := info.authors,
    downloadDate := env.now,
    filePath := joinStorage (downloadFilename arxivId info.title),
    fileSize := env.writtenSize, categories := info.categories,
    abstract := info.abstract }

/-- The state after the fresh-download path: artifact written, entry
upserted in the in-memory map, catalog persisted. -/
def freshState (st : StorageState) (env : DownloadEnv) (arxivId : String)
    (info : PaperInfo) : StorageState :=
  let entry := freshEntry env arxivId info
  let md := catSet st.metadata arxivId entry
  { metadata := md,
    fs := { files := if st.fs.files.contains entry.filePath then st.fs.files
                     else entry.filePath :: st.fs.files,
            metadataFile := md } }

/-- The fresh-download path of `StorageManager.downloadPaper`
(src/storage/storageManager.ts lines 63-100): fetch (throwing a plain
`Error` on a non-ok response), write the artifact, build and persist the
entry.  One fetch, one file write, one metadata save. -/
def freshDownload (st : StorageState) (env : DownloadEnv) (arxivId : String)
    (info : PaperInfo) :
    Except (ErrKind × String) (DownloadedPaper × StorageState × Effects) :=
  if env.fetchOk then
    .ok (freshEntry env arxivId info, freshState st env arxivId info, ⟨1, 1, 1⟩)
  else .error (.plain, "Failed to download: " ++ env.statusText)

/-- `StorageManager.downloadPaper` (src/storage/storageManager.ts lines
38-106).  If the id has an entry whose artifact still exists, return it
unchanged with no effects; otherwise (no entry, or entry with a missing
artifact) take the fresh-download path. -/
def downloadPaper (st : StorageState) (env : DownloadEnv) (arxivId : String)
    (pdfUrl : String) (info : PaperInfo) :
    Except (ErrKind × String) (DownloadedPaper × StorageState × Effects) :=
  match catGet st.metadata arxivId with
  | some existing =>
    if fileExists st.fs existing.filePath then .ok (existing, st, noEffects)
    else freshDownload st env arxivId info
  | none => freshDownload st env arxivId info

/-- The scan of `listDownloadedPapers` (src/storage/storageManager.ts
lines 111-121): returns the surviving papers in order and the catalog
after deleting every entry whose artifact is missing. -/
def listScan : Catalog → List String → List DownloadedPaper × Catalog
  | [], _ => ([], [])
  | (k, p) :: rest, files =>
    let r := listScan rest files
    if files.contains p.filePath then (p :: r.1, (k, p) :: r.2)
    else r

/-- `StorageManager.listDownloadedPapers` (src/storage/storageManager.ts
lines 108-129): scan the catalog, drop entries with missing artifacts
from the in-memory map, and save the metadata file only when
`papers.length !== this.metadata.size` holds after the scan. -/
def listDownloadedPapers (st : StorageState) :
    List DownloadedPaper × StorageState × Effects :=
  let r := listScan st.metadata st.fs.files
  if r.1.length = r.2.length then
    (r.1, { metadata := r.2, fs := st.fs }, noEffects)
  else
    (r.1, { metadata := r.2, fs := { files := st.fs.files, metadataFile := r.2 } },
     ⟨0, 0, 1⟩)

/-- Oracle for `fs.unlink`: whether deleting a given path succeeds. -/
structure FsEnv where
  unlinkOk : String → Bool

/-- `StorageManager.deletePaper` (src/storage/storageManager.ts lines
131-147).  The body's try/catch swallows any deletion failure and returns
`false`, so the function never produces an `Except.error` even though its
codomain allows one. -/
def deletePaper (st : StorageState) (env : FsEnv) (arxivId : String) :
    Except (ErrKind × String) (Bool × StorageState × Effects) :=
  match catGet st.metadata arxivId with
  | none => .ok (false, st, noEffects)
  | some paper =>
    if env.unlinkOk paper.filePath then
      let md := catRemove st.metadata arxivId
      .ok (true,
           { metadata := md,
             fs := { files := st.fs.files.erase paper.filePath, metadataFile := md } },
           ⟨0, 0, 1⟩)
    else .ok (false, st, noEffects)

/-! ## Tool handlers: `ArxivServer.readPaperContent` / `searchInPaper`
(src/index.ts lines 1130-1187) -/

/-- The not-found message both handlers throw for an identifier with no
valid catalog entry. -/
def notDownloadedMsg (arxivId : String) : String :=
  "Paper " ++ arxivId ++ " not found in local storage. Please download it first."

/-- `ArxivServer.readPaperContent` (src/index.ts lines 1130-1157) up to
the point where the external PDF decoder takes over: validate the
argument (JavaScript falsiness makes a missing or empty id invalid),
resolve the id through `listDownloadedPapers`, and fail with a
`ValidationError` when no entry matches.  On success it returns the
resolved entry (whose `filePath` the decoder would read) and the
updated state. -/
def readPaperContentTool (st : StorageState) (arxivId : Option String) :
    Except (ErrKind × String) (DownloadedPaper × StorageState) :=
  match arxivId with
  | none => .error (.validation, "arxivId is required")
  | some id =>
    if id = "" then .error (.validation, "arxivId is required")
    else
      let r := listDownloadedPapers st
      match r.1.find? (fun p => p.id = id) with
      | none => .error (.validation, notDownloadedMsg id)
      | some paper => .ok (paper, r.2.1)

/-- `ArxivServer.searchInPaper` (src/index.ts lines 1159-1187) up to the
decode step, analogously; the term is carried through to witness that the
search would run on the resolved artifact. -/
def searchInPaperTool (st : StorageState) (arxivId searchTerm : Option String) :
    Except (ErrKind × String) (DownloadedPaper × String × StorageState) :=
  match arxivId, searchTerm with
  | none, _ => .error (.validation, "arxivId and searchTerm are required")
  | _, none => .error (.validation, "arxivId and searchTerm are required")
  | some id, some term =>
    if id = "" ∨ term = "" then .error (.validation, "arxivId and searchTerm are required")
    else
      let r := listDownloadedPapers st
      match r.1.find? (fun p => p.id = id) with
      | none => .error (.validation, notDownloadedMsg id)
      | some paper => .ok (paper, term, r.2.1)

/-! ## Supporting lemmas -/

theorem scanLoop_completes (find : Nat → Option (Nat × Nat)) (n : Nat)
    (H : ∀ j i l, find j = some (i, l) → j ≤ i ∧ i + l ≤ n ∧ 1 ≤ l) :
    ∀ (fuel li : Nat), n + 1 - li ≤ fuel → 1 ≤ fuel →
      (scanLoop find fuel li).2 = true := by
  intro fuel
  induction fuel with
  | zero => intro li _ h1; omega
  | succ fuel ih =>
    intro li hle _
    cases hf : find li with
    | none => simp [scanLoop, hf]
    | some il =>
      obtain ⟨i, l⟩ := il
      obtain ⟨h1, h2, h3⟩ := H li i l hf
      have hrec : (scanLoop find fuel (i + l)).2 = true := ih (i + l) (by omega) (by omega)
      simp [scanLoop, hf, hrec]

theorem litPrefix_length : ∀ (t s : List Char), litPrefix t s = true → t.length ≤ s.length := by
  intro t
  induction t with
  | nil => intro s _; simp
  | cons c cs ih =>
    intro s h
    cases s with
    | nil => simp [litPrefix] at h
    | cons d s' =>
      simp only [litPrefix, Bool.and_eq_true] at h
      have := ih s' h.2
      simp only [List.length_cons]
      omega

theorem litFindAux_sound (term : List Char) :
    ∀ (s : List Char) (i j l : Nat), litFindAux term s i = some (j, l) →
      i ≤ j ∧ j + l ≤ i + s.length ∧ l = term.length := by
  intro s
  induction s with
  | nil =>
    intro i j l h
    unfold litFindAux at h
    by_cases hp : litPrefix term [] = true
    · rw [if_pos hp] at h
      simp only [Option.some.injEq, Prod.mk.injEq] at h
      obtain ⟨rfl, rfl⟩ := h
      have := litPrefix_length term [] hp
      simp only [List.length_nil, Nat.le_zero] at this
      refine ⟨le_refl _, ?_, rfl⟩
      simp [this]
    · rw [if_neg hp] at h
      exact absurd h (by simp)
  | cons c s' ih =>
    intro i j l h
    unfold litFindAux at h
    by_cases hp : litPrefix term (c :: s') = true
    · rw [if_pos hp] at h
      simp only [Option.some.injEq, Prod.mk.injEq] at h
      obtain ⟨rfl, rfl⟩ := h
      have := litPrefix_length term (c :: s') hp
      simp at this ⊢
      omega
    · rw [if_neg hp] at h
      have := ih (i + 1) j l h
      simp only [List.length_cons]
      omega

theorem literalFind_sound (term body : List Char) (hterm : term ≠ []) :
    ∀ j i l, literalFind term body j = some (i, l) →
      j ≤ i ∧ i + l ≤ body.length ∧ 1 ≤ l := by
  intro j i l h
  unfold literalFind at h
  by_cases hj : j ≤ body.length
  · rw [if_pos hj] at h
    obtain ⟨h1, h2, h3⟩ := litFindAux_sound term (body.drop j) j i l h
    rw [List.length_drop] at h2
    have hlen : 1 ≤ term.length := by
      cases term with
      | nil => exact absurd rfl hterm
      | cons _ _ => simp
    omega
  · rw [if_neg hj] at h
    exact absurd h (by simp)

theorem execAll_completes (term body : List Char) (hterm : term ≠ []) :
    (execAll term body).2 = true :=
  scanLoop_completes (literalFind term body) body.length
    (literalFind_sound term body hterm) (body.length + 1) 0 (by omega) (by omega)

theorem aStar_loop_stuck (body : List Char) (h : countA body = 0) :
    ∀ fuel, (scanLoop (aStarFind body) fuel 0).2 = false := by
  intro fuel
  induction fuel with
  | zero => rfl
  | succ fuel ih =>
    have hf : aStarFind body 0 = some (0, 0) := by
      unfold aStarFind
      simp [h]
    simp [scanLoop, hf, ih]

theorem listScan_lengths : ∀ (md : Catalog) (files : List String),
    (listScan md files).1.length = (listScan md files).2.length := by
  intro md files
  induction md with
  | nil => rfl
  | cons kp rest ih =>
    obtain ⟨k, p⟩ := kp
    simp only [listScan]
    split
    · simp [ih]
    · exact ih

theorem listDownloadedPapers_no_save (st : StorageState) :
    ((listDownloadedPapers st).2.2).metadataSaves = 0 := by
  unfold listDownloadedPapers
  simp [listScan_lengths]
  rfl

theorem listDownloadedPapers_fst (st : StorageState) :
    (listDownloadedPapers st).1 = (listScan st.metadata st.fs.files).1 := by
  unfold listDownloadedPapers
  simp [listScan_lengths]

theorem listScan_mem : ∀ (md : Catalog) (files : List String) (id : String)
    (p : DownloadedPaper),
    catGet md id = some p → files.contains p.filePath = true →
    p ∈ (listScan md files).1 := by
  intro md files id p
  induction md with
  | nil => intro h _; simp [catGet] at h
  | cons kp rest ih =>
    obtain ⟨k, q⟩ := kp
    intro h hf
    by_cases hk : k = id
    · rw [catGet, if_pos hk] at h
      injection h with h
      subst h
      have hf' : q.filePath ∈ files := by simpa using hf
      simp [listScan, hf']
    · rw [catGet, if_neg hk] at h
      have := ih h hf
      simp only [listScan]
      split
      · exact List.mem_cons_of_mem _ this
      · exact this

theorem map_slash_id_of_count_zero : ∀ {l : List Char}, l.count '/' = 0 →
    l.map (fun c => if c = '/' then '_' else c) = l := by
  intro l
  induction l with
  | nil => intro _; rfl
  | cons c s ih =>
    intro h
    rw [List.count_cons] at h
    by_cases hc : c = '/'
    · simp [hc] at h
    · simp only [List.map_cons, if_neg hc]
      rw [ih (by omega)]

theorem replaceFirst_eq_map_of_count_le_one : ∀ {l : List Char}, l.count '/' ≤ 1 →
    replaceFirst '/' '_' l = l.map (fun c => if c = '/' then '_' else c) := by
  intro l
  induction l with
  | nil => intro _; rfl
  | cons c s ih =>
    intro h
    rw [List.count_cons] at h
    by_cases hc : c = '/'
    · have hz : s.count '/' = 0 := by simp [hc] at h; omega
      simp only [replaceFirst, if_pos hc, List.map_cons, if_pos hc]
      rw [map_slash_id_of_count_zero hz]
    · simp only [replaceFirst, if_neg hc, List.map_cons]
      rw [ih (by omega)]

/-- The fixed canonical section-name set: exactly the names of the
`sectionPatterns` table. -/
def canonicalSections : List String :=
  ["abstract", "introduction", "methodology", "results", "discussion",
   "conclusion", "references"]

theorem sectionPatterns_names : sectionPatterns.map Prod.fst = canonicalSections := rfl

theorem findHeading_mem {line : List Char} {n : String} (h : findHeading line = some n) :
    n ∈ canonicalSections := by
  unfold findHeading at h
  cases hf : List.find?
      (fun np => np.2.any (fun p => patTest p (line.map Char.toLower))) sectionPatterns with
  | none => rw [hf] at h; simp at h
  | some np =>
    rw [hf] at h
    simp only [Option.map_some'] at h
    injection h with h
    subst h
    have hm := List.mem_of_find?_eq_some hf
    rw [← sectionPatterns_names]
    exact List.mem_map_of_mem Prod.fst hm

theorem smapSet_keys : ∀ {m : SMap} {name k : String} {v : List Char},
    k ∈ (smapSet m name v).map Prod.fst → k = name ∨ k ∈ m.map Prod.fst := by
  intro m
  induction m with
  | nil =>
    intro name k v h
    simp [smapSet] at h
    exact Or.inl h
  | cons kv rest ih =>
    obtain ⟨k', v'⟩ := kv
    intro name k v h
    by_cases hk : k' = name
    · rw [smapSet, if_pos hk] at h
      simp only [List.map_cons, List.mem_cons] at h
      rcases h with h | h
      · exact Or.inr (by simp [h])
      · exact Or.inr (by simp [h])
    · rw [smapSet, if_neg hk] at h
      simp only [List.map_cons, List.mem_cons] at h
      rcases h with h | h
      · exact Or.inr (by simp [h])
      · rcases ih h with h' | h'
        · exact Or.inl h'
        · exact Or.inr (by simp [h'])

theorem flushSection_keys {cur : Option String} {content : List (List Char)}
    {secs : SMap} {k : String}
    (h : k ∈ (flushSection cur content secs).map Prod.fst) :
    k ∈ secs.map Prod.fst ∨ cur = some k := by
  cases cur with
  | none => exact Or.inl h
  | some name =>
    rw [flushSection] at h
    by_cases hc : content.isEmpty = true
    · rw [if_pos hc] at h
      exact Or.inl h
    · rw [if_neg hc] at h
      rcases smapSet_keys h with h' | h'
      · exact Or.inr (by rw [h'])
      · exact Or.inl h'

theorem extractLoop_cons (line : List Char) (rest : List (List Char))
    (cur : Option String) (content : List (List Char)) (secs : SMap) :
    extractLoop (line :: rest) cur content secs
    = match findHeading line with
      | some name => extractLoop rest (some name) [] (flushSection cur content secs)
      | none =>
        match cur with
        | some _ => extractLoop rest cur (content ++ [line]) secs
        | none => extractLoop rest cur content secs := rfl

theorem extractLoop_keys : ∀ (lines : List (List Char)) (cur : Option String)
    (content : List (List Char)) (secs : SMap) (k : String),
    (∀ n, cur = some n → n ∈ canonicalSections) →
    k ∈ (extractLoop lines cur content secs).map Prod.fst →
    k ∈ secs.map Prod.fst ∨ k ∈ canonicalSections := by
  intro lines
  induction lines with
  | nil =>
    intro cur content secs k hcur h
    rcases flushSection_keys h with h' | h'
    · exact Or.inl h'
    · exact Or.inr (hcur k h')
  | cons line rest ih =>
    intro cur content secs k hcur h
    rw [extractLoop_cons] at h
    cases hf : findHeading line with
    | some name =>
      rw [hf] at h
      simp only [] at h
      have hcur' : ∀ n, (some name : Option String) = some n → n ∈ canonicalSections := by
        intro n hn
        injection hn with hn
        subst hn
        exact findHeading_mem hf
      rcases ih (some name) [] (flushSection cur content secs) k hcur' h with h' | h'
      · rcases flushSection_keys h' with h'' | h''
        · exact Or.inl h''
        · exact Or.inr (hcur k h'')
      · exact Or.inr h'
    | none =>
      rw [hf] at h
      cases cur with
      | some name => exact ih _ _ _ _ hcur h
      | none => exact ih _ _ _ _ hcur h

theorem deletePaper_unlink_fail (st : StorageState) (env : FsEnv) (id : String)
    (p : DownloadedPaper) (h : catGet st.metadata id = some p)
    (hu : env.unlinkOk p.filePath = false) :
    deletePaper st env id = .ok (false, st, noEffects) := by
  unfold deletePaper
  rw [h]
  simp [hu]

theorem downloadPaper_existing (st : StorageState) (env : DownloadEnv)
    (id url : String) (info : PaperInfo) (p : DownloadedPaper)
    (h : catGet st.metadata id = some p) (hf : fileExists st.fs p.filePath = true) :
    downloadPaper st env id url info = .ok (p, st, noEffects) := by
  unfold downloadPaper
  rw [h]
  simp [hf]

theorem downloadPaper_fresh_of_none (st : StorageState) (env : DownloadEnv)
    (id url : String) (info : PaperInfo)
    (hok : env.fetchOk = true) (hnone : catGet st.metadata id = none) :
    downloadPaper st env id url info
      = .ok (freshEntry env id info, freshState st env id info, ⟨1, 1, 1⟩) := by
  unfold downloadPaper
  rw [hnone]
  simp [freshDownload, hok]

/-! ## Concrete fixtures used by the claim theorems and witnesses -/

/-- A sample catalog entry. -/
def paperA : DownloadedPaper :=
  { id := "2301.00001", title := "Sample", authors := ["A"],
    downloadDate := "2024-01-01T00:00:00Z",
    filePath := "STORAGE_DIR/2301.00001_Sample.pdf", fileSize := 1000,
    categories := ["cs.AI"], abstract := "x" }

/-- State whose single entry's artifact is missing on disk while the
metadata file still records the entry. -/
def stStale : StorageState :=
  { metadata := [("2301.00001", paperA)],
    fs := { files := [], metadataFile := [("2301.00001", paperA)] } }

/-- State whose single entry's artifact exists on disk. -/
def stHealthy : StorageState :=
  { metadata := [("2301.00001", paperA)],
    fs := { files := ["STORAGE_DIR/2301.00001_Sample.pdf"],
            metadataFile := [("2301.00001", paperA)] } }

/-- Empty storage. -/
def stEmpty : StorageState := { metadata := [], fs := { files := [], metadataFile := [] } }

/-- An unlink oracle on which every deletion fails (e.g. permission
denied). -/
def fsEnvDenied : FsEnv := ⟨fun _ => false⟩

/-- A benign download environment. -/
def envIdle : DownloadEnv :=
  { fetchOk := true, statusText := "OK", writtenSize := 7,
    now := "2024-01-02T00:00:00Z" }

/-- Sample descriptive metadata. -/
def infoSample : PaperInfo :=
  { title := "Sample", authors := ["A"], categories := ["cs.AI"], abstract := "x" }

/-- A one-section paper content used by the search claims. -/
def pcIntro : PaperContent :=
  { id := "p1", title := "t",
    sections := [("introduction", ("the cat sat on the mat").data)],
    fullText := ("the cat sat on the mat").data }

/-! ## Claim theorems -/

/-- C1 (code bug): the claim says segmenting
"Abstract\nFoo bar.\nIntroduction\nBaz qux." yields exactly the entries
abstract = "Foo bar." and introduction = "Baz qux.".  The code instead
yields ONLY the abstract entry: every heading pattern in
`sectionPatterns` requires a literal newline character, but the patterns
are tested against lines produced by `split('\n')`, which contain no
newline, so the heading scan never fires and only the fallback abstract
regex contributes.  This theorem evaluates the embedded code at the
claim's input, exhibiting the divergence. -/
theorem C1_segmentation_example_divergence :
    extractSections ("Abstract\nFoo bar.\nIntroduction\nBaz qux.").data
      = [("abstract", ("Foo bar.").data)]
    ∧ smapGet (extractSections ("Abstract\nFoo bar.\nIntroduction\nBaz qux.").data)
        "introduction" = none :=
  ⟨by decide, by decide⟩

/-- C2 (code bug): `listDownloadedPapers` does drop stale entries from
the in-memory catalog and excludes them from the returned list, but the
claimed persistence never happens: the guard compares the returned
papers' count against the catalog size AFTER the scan already deleted
the stale entries, so the two are always equal and `saveMetadata` is
never called.  First conjunct: at a state with one stale entry, the
entry is dropped in memory and not returned, yet the metadata file still
holds it and zero saves occurred.  Second conjunct: no state whatsoever
makes `list()` save. -/
theorem C2_self_heal_never_persisted :
    listDownloadedPapers stStale
      = ([],
         { metadata := [],
           fs := { files := [], metadataFile := [("2301.00001", paperA)] } },
         noEffects)
    ∧ ∀ st : StorageState, ((listDownloadedPapers st).2.2).metadataSaves = 0 :=
  ⟨by decide, listDownloadedPapers_no_save⟩

/-- C3 counterexample: with an existing entry whose artifact deletion
fails, `deletePaper` returns the ordinary boolean result `false`
(`Except.ok`), not a StorageError — the try/catch swallows the failure,
and the `StorageError` class is never raised anywhere. -/
theorem C3_counterexample_returns_ok_false :
    (deletePaper stHealthy fsEnvDenied "2301.00001").isOk = true
    ∧ deletePaper stHealthy fsEnvDenied "2301.00001" = .ok (false, stHealthy, noEffects) :=
  ⟨rfl, rfl⟩

/-- C3 (amended): when the artifact deletion fails during eviction, the
operation does NOT surface a StorageError; it catches the failure and
returns false, leaving the state (catalog entry included) unchanged. -/
theorem C3_delete_failure_swallowed :
    ∀ (st : StorageState) (env : FsEnv) (id : String) (p : DownloadedPaper),
      catGet st.metadata id = some p → env.unlinkOk p.filePath = false →
      deletePaper st env id = .ok (false, st, noEffects) :=
  fun st env id p h hu => deletePaper_unlink_fail st env id p h hu

/-- C3 witness: the amended theorem at a concrete state. -/
theorem C3_delete_failure_swallowed_witness :
    catGet stHealthy.metadata "2301.00001" = some paperA
    ∧ fsEnvDenied.unlinkOk paperA.filePath = false
    ∧ deletePaper stHealthy fsEnvDenied "2301.00001" = .ok (false, stHealthy, noEffects) :=
  ⟨rfl, rfl, C3_delete_failure_swallowed stHealthy fsEnvDenied "2301.00001" paperA rfl rfl⟩

/-- C4: if artifact deletion fails during eviction, the catalog entry is
unchanged afterward: `deletePaper` returns false with the state intact,
the entry is still in the in-memory catalog, and while its artifact
exists it is still returned by `list()`. -/
theorem C4_eviction_failure_entry_intact :
    ∀ (st : StorageState) (env : FsEnv) (id : String) (p : DownloadedPaper),
      catGet st.metadata id = some p → env.unlinkOk p.filePath = false →
      deletePaper st env id = .ok (false, st, noEffects)
      ∧ catGet st.metadata id = some p
      ∧ (st.fs.files.contains p.filePath = true → p ∈ (listDownloadedPapers st).1) := by
  intro st env id p h hu
  refine ⟨deletePaper_unlink_fail st env id p h hu, h, ?_⟩
  intro hfile
  rw [listDownloadedPapers_fst]
  exact listScan_mem st.metadata st.fs.files id p h hfile

/-- C4 witness: the theorem at a concrete state whose artifact exists. -/
theorem C4_eviction_failure_entry_intact_witness :
    catGet stHealthy.metadata "2301.00001" = some paperA
    ∧ stHealthy.fs.files.contains paperA.filePath = true
    ∧ paperA ∈ (listDownloadedPapers stHealthy).1 :=
  ⟨rfl, rfl,
   (C4_eviction_failure_entry_intact stHealthy fsEnvDenied "2301.00001" paperA rfl rfl).2.2 rfl⟩

/-- C5: a second acquire for an identifier whose entry exists and whose
artifact is still on disk returns the stored entry itself, with no
fetch, no file write, no metadata save, and the state (in-memory catalog
and metadata file) unchanged. -/
theorem C5_acquire_idempotent :
    ∀ (st : StorageState) (env : DownloadEnv) (id url : String) (info : PaperInfo)
      (p : DownloadedPaper),
      catGet st.metadata id = some p → fileExists st.fs p.filePath = true →
      downloadPaper st env id url info = .ok (p, st, noEffects) :=
  fun st env id url info p h hf => downloadPaper_existing st env id url info p h hf

/-- C5 witness: the theorem at a concrete healthy state. -/
theorem C5_acquire_idempotent_witness :
    catGet stHealthy.metadata "2301.00001" = some paperA
    ∧ fileExists stHealthy.fs paperA.filePath = true
    ∧ downloadPaper stHealthy envIdle "2301.00001" "http://example/pdf" infoSample
        = .ok (paperA, stHealthy, noEffects) :=
  ⟨rfl, rfl,
   C5_acquire_idempotent stHealthy envIdle "2301.00001" "http://example/pdf" infoSample
     paperA rfl rfl⟩

/-- C6: searching the one-section map for "cat" case-insensitively
returns exactly one match in section introduction at offset 4 whose
context contains "the cat sat" (here the context window is the whole
body, which is shorter than 50 + 3 + 50); searching for "CAT" case
sensitively returns the empty result, the introduction section being
omitted entirely because it has zero matches. -/
theorem C6_search_example :
    searchInPaper pcIntro ("cat").data false
      = [("introduction", [(("the cat sat on the mat").data, 4)])]
    ∧ containsSub ("the cat sat").data ("the cat sat on the mat").data = true
    ∧ searchInPaper pcIntro ("CAT").data true = [] :=
  ⟨by decide, by decide, by decide⟩

/-- C7 counterexample: for the identifier "a/b/c" (more than one slash)
the artifact filename is NOT the claimed every-slash-replaced form:
JavaScript `replace` with a string pattern substitutes only the first
occurrence, so a slash survives into the filename. -/
theorem C7_counterexample_second_slash_survives :
    downloadFilename "a/b/c" "T" = ("a_b/c_T.pdf").data
    ∧ downloadFilename "a/b/c" "T" ≠ specFilename "a/b/c" "T" :=
  ⟨by decide, by decide⟩

/-- C7 (amended): the artifact written by the fresh-download path of
acquire is named {identifier with its FIRST slash replaced by
underscore}_{sanitized title}.pdf, with sanitization exactly as the claim
describes; whenever the identifier contains at most one slash (as every
real arXiv identifier does) this coincides with the claim's
every-slash-replaced form. -/
theorem C7_filename_derivation :
    (∀ (st : StorageState) (env : DownloadEnv) (id url : String) (info : PaperInfo),
        env.fetchOk = true → catGet st.metadata id = none →
        downloadPaper st env id url info
          = .ok (freshEntry env id info, freshState st env id info, ⟨1, 1, 1⟩)
        ∧ (freshEntry env id info).filePath = joinStorage (downloadFilename id info.title))
    ∧ (∀ (id title : String), id.data.count '/' ≤ 1 →
        downloadFilename id title = specFilename id title) := by
  constructor
  · intro st env id url info hok hnone
    exact ⟨downloadPaper_fresh_of_none st env id url info hok hnone, rfl⟩
  · intro id title h
    unfold downloadFilename specFilename
    rw [replaceFirst_eq_map_of_count_le_one h]

/-- C7 witness: the amended theorem at the old-style identifier
math/0211159, which contains exactly one slash. -/
theorem C7_filename_derivation_witness :
    catGet stEmpty.metadata "math/0211159" = none
    ∧ ("math/0211159" : String).data.count '/' ≤ 1
    ∧ downloadPaper stEmpty envIdle "math/0211159" "http://example/pdf" infoSample
        = .ok (freshEntry envIdle "math/0211159" infoSample,
               freshState stEmpty envIdle "math/0211159" infoSample, ⟨1, 1, 1⟩)
    ∧ downloadFilename "math/0211159" "Sample" = specFilename "math/0211159" "Sample" :=
  ⟨rfl, by decide,
   ((C7_filename_derivation.1 stEmpty envIdle "math/0211159" "http://example/pdf"
      infoSample rfl rfl).1),
   C7_filename_derivation.2 "math/0211159" "Sample" (by decide)⟩

/-- C8 counterexample: a read request for an identifier with no catalog
entry fails with kind `ErrKind.validation` — the very same kind the
missing-argument validation failure uses — so the failure is NOT a
distinct NotDownloadedError kind (no such class exists in the code;
both handlers throw ValidationError). -/
theorem C8_counterexample_same_kind_as_validation :
    readPaperContentTool stEmpty (some "2301.00001")
      = .error (.validation, notDownloadedMsg "2301.00001")
    ∧ readPaperContentTool stEmpty none = .error (.validation, "arxivId is required") :=
  ⟨rfl, rfl⟩

/-- C8 (amended): for an identifier with no valid catalog entry, read
and search requests fail with a ValidationError (not a distinct
NotDownloadedError kind) whose message tells the caller to download
first. -/
theorem C8_not_downloaded_is_validation_error :
    ∀ (st : StorageState) (id term : String),
      id ≠ "" → term ≠ "" →
      (listDownloadedPapers st).1.find? (fun p => p.id = id) = none →
      readPaperContentTool st (some id) = .error (.validation, notDownloadedMsg id)
      ∧ searchInPaperTool st (some id) (some term)
          = .error (.validation, notDownloadedMsg id) := by
  intro st id term hid hterm hfind
  constructor
  · simp [readPaperContentTool, hid, hfind]
  · simp [searchInPaperTool, hid, hterm, hfind]

/-- C8 witness: the amended theorem at the empty store. -/
theorem C8_not_downloaded_is_validation_error_witness :
    (listDownloadedPapers stEmpty).1.find? (fun p => p.id = "2301.00001") = none
    ∧ readPaperContentTool stEmpty (some "2301.00001")
        = .error (.validation, notDownloadedMsg "2301.00001") :=
  ⟨rfl,
   (C8_not_downloaded_is_validation_error stEmpty "2301.00001" "cat"
     (by decide) (by decide) rfl).1⟩

/-- C9: the exec-loop of `searchInPaper` advances only through the
regex's `lastIndex`.  First conjunct: for ANY exec behavior that only
matches at or after `lastIndex`, within the body, and never with length
zero, the loop completes within `length + 1` iterations.  Second
conjunct: consequently the loop run by the embedded `searchInPaper`
(`execAll`) completes for every non-empty literal term on every body.
Third conjunct: the precondition is necessary — for the zero-width
pattern a-star on the non-empty body "the cat sat on the mat" the loop
never completes, for any amount of fuel (the source loops forever). -/
theorem C9_exec_loop_termination :
    (∀ (find : Nat → Option (Nat × Nat)) (n : Nat),
        (∀ j i l, find j = some (i, l) → j ≤ i ∧ i + l ≤ n ∧ 1 ≤ l) →
        (scanLoop find (n + 1) 0).2 = true)
    ∧ (∀ (term body : List Char), term ≠ [] → (execAll term body).2 = true)
    ∧ (∀ fuel : Nat,
        (scanLoop (aStarFind (("the cat sat on the mat").data)) fuel 0).2 = false) :=
  ⟨fun find n H => scanLoop_completes find n H (n + 1) 0 (by omega) (by omega),
   fun term body h => execAll_completes term body h,
   fun fuel => aStar_loop_stuck _ (by decide) fuel⟩

/-- C9 witness: each part at a concrete instance. -/
theorem C9_exec_loop_termination_witness :
    (("cat").data ≠ ([] : List Char))
    ∧ (execAll ("cat").data (("the cat sat on the mat").data)).2 = true
    ∧ (scanLoop (fun _ => (none : Option (Nat × Nat))) 1 0).2 = true
    ∧ (scanLoop (aStarFind (("the cat sat on the mat").data)) 5 0).2 = false :=
  ⟨by decide,
   C9_exec_loop_termination.2.1 ("cat").data (("the cat sat on the mat").data) (by decide),
   C9_exec_loop_termination.1 (fun _ => none) 0 (fun j i l h => Option.noConfusion h),
   C9_exec_loop_termination.2.2 5⟩

/-- C10: every key of the section map returned by `extractSections`
belongs to the fixed canonical set; unrecognized headings never
introduce a key (heading-scan insertions use names from the
`sectionPatterns` table and the fallback inserts only "abstract"). -/
theorem C10_keys_canonical :
    ∀ (text : List Char) (k : String),
      k ∈ (extractSections text).map Prod.fst → k ∈ canonicalSections := by
  intro text k h
  simp only [extractSections] at h
  have hloop : k ∈ (extractLoop (splitLines text) none [] []).map Prod.fst →
      k ∈ canonicalSections := by
    intro h'
    rcases extractLoop_keys (splitLines text) none [] [] k
        (fun n hn => Option.noConfusion hn) h' with h'' | h''
    · simp at h''
    · exact h''
  by_cases hab : abstractFalsy (extractLoop (splitLines text) none [] []) = true
  · rw [if_pos hab] at h
    cases hfb : abstractFallback text with
    | some g =>
      rw [hfb] at h
      rcases smapSet_keys h with h' | h'
      · rw [h']; decide
      · exact hloop h'
    | none =>
      rw [hfb] at h
      exact hloop h
  · rw [if_neg hab] at h
    exact hloop h

/-- C10 witness: the theorem at a concrete text whose section map has
the key "abstract". -/
theorem C10_keys_canonical_witness :
    ("abstract" : String) ∈
      (extractSections ("Abstract\nFoo bar.\nIntroduction\nBaz qux.").data).map Prod.fst
    ∧ ("abstract" : String) ∈ canonicalSections :=
  ⟨by decide,
   C10_keys_canonical ("Abstract\nFoo bar.\nIntroduction\nBaz qux.").data "abstract"
     (by decide)⟩
